import Mathlib

/-!
Shallow embedding of the desktop-assistant main process
(`src/main/index.ts`): the five capability providers, the AppleScript
confirmation gate, the confirmed-execution entry point, and the
LLM tool-call orchestration loop `handleLlmQuery`.

Modelling conventions:
* The outside world (shell commands, filesystem, `osascript`, `mdfind`,
  `shell.openPath`) is an explicit environment `Env` of deterministic
  responses; every side-effecting call is additionally recorded in an
  `Effect` log so that statements about "what actually ran" are provable.
* The model oracle (the hosted LLM) is a function from the turn index to
  an `OracleResponse`: either an assistant message (text and/or tool
  calls) or a thrown transport error.
* Tool-call arguments are modelled as an already-parsed record `FnArgs`
  (the TS code parses `toolCall.function.arguments` with JSON.parse; the
  malformed-JSON throw path, which ends in the generic catch and the
  `error` outcome, is not modelled, and scriptContent is always a
  string, so the dead `typeof scriptToConfirm` guard is omitted).
* JavaScript truthiness on strings (empty string is falsy) is modelled
  by explicit comparisons with the empty string.
* The orchestration loop is instrumented: it returns, besides the
  terminal outcome, the final conversation, the effect log, and the
  trace of conversation states reached, so append-only/integrity
  invariants can be stated.
-/

namespace Controller

/-- Result/argument record types shared by the providers. -/
structure AppInfo where
  name : String
  path : String
deriving DecidableEq, Repr

/-- Parsed tool-call arguments: the union of the fields the five tool
schemas accept (`filePath`, `query`, `scriptContent`); a field absent
from a given call is the empty string. -/
structure FnArgs where
  filePath : String
  query : String
  scriptContent : String
deriving DecidableEq, Repr

/-- A model-issued tool call: opaque id, capability name, parsed args. -/
structure ToolCall where
  id : String
  name : String
  args : FnArgs
deriving DecidableEq, Repr

/-- Filesystem error codes distinguished by `readFileContent`. -/
inductive FsError where
  | enoent
  | eacces
  | other (message : String)
deriving DecidableEq, Repr

/-- Result of `fsPromises.stat`: a stat record (of which only
`isFile()` is consulted) or a thrown error. -/
inductive StatOutcome where
  | ok (isFile : Bool)
  | err (e : FsError)
deriving DecidableEq, Repr

/-- Result of `fsPromises.readFile`: content or a thrown error. -/
inductive ReadOutcome where
  | ok (content : String)
  | err (e : FsError)
deriving DecidableEq, Repr

/-- Result of `execFileAsync('osascript', args)`: resolved
(stdout, stderr) or a rejection carrying an optional stderr capture and
a message. -/
inductive OsaOutcome where
  | ok (stdout stderr : String)
  | err (stderr : Option String) (message : String)
deriving DecidableEq, Repr

/-- The outside world as seen by the providers. -/
structure Env where
  ls : Except String String
  readdir : Except String (List String)
  openThrows : String → Option String
  mdfind : String → Except String String
  stat : String → StatOutcome
  readFile : String → ReadOutcome
  osascript : List String → OsaOutcome

/-- Side effects a provider can perform, recorded in order. -/
inductive Effect where
  | execShell (cmd : String)
  | execFile (file : String) (args : List String)
  | shellOpenPath (path : String)
  | fsReaddir (dir : String)
  | fsStat (path : String)
  | fsReadFile (path : String)
deriving DecidableEq, Repr

/-- Does this effect run `osascript`? -/
def Effect.isOsascriptRun : Effect → Bool
  | .execFile f _ => f == "osascript"
  | _ => false

/-- Provider return values, mirroring the JSON object shapes the TS
functions resolve with:
`appList` / `fileList` are arrays of records with name and path;
`openOk` is success true; `openErr` is success false with error;
`needsConfirmation` is the confirmation envelope with scriptContent;
`noConfirmError` is needsConfirmation false with error;
`readOk` is success true with content; `readErr` is success false with
error. -/
inductive FnResponse where
  | appList (apps : List AppInfo)
  | openOk
  | openErr (error : String)
  | fileList (files : List AppInfo)
  | needsConfirmation (scriptContent : String)
  | noConfirmError (error : String)
  | readOk (content : String)
  | readErr (error : String)
deriving DecidableEq, Repr

/-- The `.error` field of a provider response (`none` when the shape has
no such field), used by the loop's truthiness check on
`functionResponse.error`. -/
def respError : FnResponse → Option String
  | .openErr e => some e
  | .noConfirmError e => some e
  | .readErr e => some e
  | _ => none

/-- Content of a tool-role message: either
`JSON.stringify (object with error field)` or
`JSON.stringify functionResponse`. -/
inductive ToolContent where
  | errorPayload (error : String)
  | payload (resp : FnResponse)
deriving DecidableEq, Repr

/-- Conversation messages (`ChatCompletionMessageParam`). -/
inductive Msg where
  | system (content : String)
  | user (content : String)
  | assistant (content : Option String) (tool_calls : List ToolCall)
  | tool (tool_call_id : String) (content : ToolContent)
deriving DecidableEq, Repr

/-- The shell command `listApplications` tries first. -/
def lsCmd : String := "ls /Applications | grep .app | sed \"s/.app//g\""

/-- `listApplications`: primary strategy runs a shell pipeline whose
stdout is one app name per line; on failure, falls back to reading the
/Applications directory and filtering for the .app suffix; if both
fail, resolves with an empty list. -/
def listApplications (env : Env) : FnResponse × List Effect :=
  match env.ls with
  | .ok stdout =>
      let appNames := (stdout.splitOn "\n").filter (fun s => s ≠ "")
      (.appList (appNames.map (fun n => AppInfo.mk n ("/Applications/" ++ n ++ ".app"))),
       [Effect.execShell lsCmd])
  | .error _ =>
      match env.readdir with
      | .ok files =>
          (.appList (((files.filter (fun f => f.endsWith ".app")).map
              (fun f => AppInfo.mk (f.dropRight 4) ("/Applications/" ++ f)))),
           [Effect.execShell lsCmd, Effect.fsReaddir "/Applications"])
      | .error _ =>
          (.appList [], [Effect.execShell lsCmd, Effect.fsReaddir "/Applications"])

/-- `openPath`: best-effort open through `shell.openPath`; success
unless the call throws. -/
def openPath (env : Env) (filePath : String) : FnResponse × List Effect :=
  match env.openThrows filePath with
  | none => (.openOk, [Effect.shellOpenPath filePath])
  | some m => (.openErr m, [Effect.shellOpenPath filePath])

/-- `path.basename`: the last slash-separated component. -/
def jsBasename (p : String) : String := ((p.splitOn "/").getLast?).getD p

/-- `searchFiles`: runs `mdfind query`, parses stdout lines into
name/path records, caps the list at 20 entries; empty list on failure. -/
def searchFiles (env : Env) (query : String) : FnResponse × List Effect :=
  match env.mdfind query with
  | .ok stdout =>
      (.fileList ((((stdout.splitOn "\n").filter (fun s => s ≠ "")).map
          (fun p => AppInfo.mk (jsBasename p) p)).take 20),
       [Effect.execFile "mdfind" [query]])
  | .error _ => (.fileList [], [Effect.execFile "mdfind" [query]])

/-- Error message produced by `readFileContent`'s catch block. -/
def readCatchMessage (filePath : String) (e : FsError) : String :=
  match e with
  | .enoent => "File not found at path: " ++ filePath
  | .eacces => "Permission denied to read file: " ++ filePath
  | .other m => "Failed to read file: " ++ m

/-- The fixed 5000-character content ceiling of `readFileContent`. -/
def maxContentLength : Nat := 5000

/-- `readFileContent`: stats the path, rejects non-regular files,
reads the content, truncates past `maxContentLength` with a marker;
thrown filesystem errors are mapped through `readCatchMessage`. -/
def readFileContent (env : Env) (filePath : String) : FnResponse × List Effect :=
  match env.stat filePath with
  | .err e => (.readErr (readCatchMessage filePath e), [Effect.fsStat filePath])
  | .ok false => (.readErr ("Path is not a file: " ++ filePath), [Effect.fsStat filePath])
  | .ok true =>
      match env.readFile filePath with
      | .err e => (.readErr (readCatchMessage filePath e),
                   [Effect.fsStat filePath, Effect.fsReadFile filePath])
      | .ok content =>
          if content.length > maxContentLength then
            (.readOk (content.take maxContentLength ++ "... [truncated]"),
             [Effect.fsStat filePath, Effect.fsReadFile filePath])
          else
            (.readOk content, [Effect.fsStat filePath, Effect.fsReadFile filePath])

/-- Confirmation gate, phase 1: the function the model-facing
`executeAppleScript` tool name is mapped to. It never executes
anything: it rejects empty script content with an error envelope and
otherwise packages the script into a needs-confirmation envelope. -/
def runAppleScriptNeedsConfirmation (scriptContent : String) : FnResponse × List Effect :=
  if scriptContent = "" then (.noConfirmError "Empty script content provided.", [])
  else (.needsConfirmation scriptContent, [])

/-- Result shape of the confirmed-execution entry point. -/
structure ExecResult where
  success : Bool
  output : Option String
  error : Option String
deriving DecidableEq, Repr

/-- The `-e line` argument vector `executeConfirmedAppleScript` builds:
split on newlines, drop blank lines, trim each line. -/
def osascriptArgs (scriptContent : String) : List String :=
  ((scriptContent.splitOn "\n").filter (fun line => line.trim ≠ "")).foldl
    (fun acc line => acc ++ ["-e", line.trim]) []

/-- Confirmation gate, phase 2: the separate IPC entry point
(`execute-confirmed-applescript`) the renderer calls after explicit
user approval. Rejects the empty script without executing; otherwise
runs `osascript` and maps stdout/stderr/rejection into the result. -/
def executeConfirmedAppleScript (env : Env) (scriptContent : String) :
    ExecResult × List Effect :=
  if scriptContent = "" then
    (ExecResult.mk false none (some "Cannot execute empty script."), [])
  else
    match env.osascript (osascriptArgs scriptContent) with
    | .ok stdout stderr =>
        if stderr ≠ "" then
          (ExecResult.mk false none (some ("Script execution failed: " ++ stderr)),
           [Effect.execFile "osascript" (osascriptArgs scriptContent)])
        else
          (ExecResult.mk true (some stdout) none,
           [Effect.execFile "osascript" (osascriptArgs scriptContent)])
    | .err stderrOpt msg =>
        let errorMessage :=
          match stderrOpt with
          | some s => if s ≠ "" then "Command failed: " ++ s else msg
          | none => msg
        (ExecResult.mk false none (some errorMessage),
         [Effect.execFile "osascript" (osascriptArgs scriptContent)])

/-- The string-keyed tool-name dispatch table (`availableFunctions`):
maps a model-issued function name to the provider implementation, with
the model-facing name `executeAppleScript` mapped to the
confirmation-signalling function, not to any executor. -/
def availableFunctions (env : Env) (name : String) :
    Option (FnArgs → FnResponse × List Effect) :=
  if name = "listApplications" then some (fun _ => listApplications env)
  else if name = "openPath" then some (fun a => openPath env a.filePath)
  else if name = "searchFiles" then some (fun a => searchFiles env a.query)
  else if name = "executeAppleScript" then
    some (fun a => runAppleScriptNeedsConfirmation a.scriptContent)
  else if name = "readFileContent" then some (fun a => readFileContent env a.filePath)
  else none

/-- Processing one tool call inside the batch loop either interrupts
(the AppleScript confirmation `break`) or yields a tool-role result
message plus the effects the provider performed. -/
inductive StepRes where
  | interrupt (scriptContent : String) (effects : List Effect)
  | result (m : Msg) (effects : List Effect)
deriving DecidableEq, Repr

/-- One iteration of the `for toolCall of toolCalls` body: unknown
names become error results; the `executeAppleScript` name gets the
special handling (needs-confirmation → interrupt; truthy `.error` →
error result; otherwise the defensive internal-error result); every
other call's response is serialized as the result. -/
def processOne (env : Env) (c : ToolCall) : StepRes :=
  match availableFunctions env c.name with
  | none => .result (Msg.tool c.id (.errorPayload ("Unknown tool function: " ++ c.name))) []
  | some f =>
      let r := f c.args
      if c.name = "executeAppleScript" then
        match r.1 with
        | .needsConfirmation s => .interrupt s r.2
        | resp =>
            match respError resp with
            | some e =>
                if e = "" then
                  .result (Msg.tool c.id
                    (.errorPayload "Internal error processing AppleScript confirmation.")) r.2
                else .result (Msg.tool c.id (.errorPayload e)) r.2
            | none =>
                .result (Msg.tool c.id
                  (.errorPayload "Internal error processing AppleScript confirmation.")) r.2
      else .result (Msg.tool c.id (.payload r.1)) r.2

/-- Outcome of dispatching a whole tool-call batch: either the
confirmation interrupt fired (carrying the script, the tool-result
messages accumulated before the interrupt, and the effects performed),
or the batch completed with its result messages and effects. -/
inductive BatchOutcome where
  | interrupted (scriptContent : String) (results : List Msg) (effects : List Effect)
  | completed (results : List Msg) (effects : List Effect)
deriving DecidableEq, Repr

/-- Prepend one processed call's result message and effects. -/
def BatchOutcome.withPre (m : Msg) (effs : List Effect) : BatchOutcome → BatchOutcome
  | .interrupted s rs es => .interrupted s (m :: rs) (effs ++ es)
  | .completed rs es => .completed (m :: rs) (effs ++ es)

/-- The result messages of a batch outcome. -/
def BatchOutcome.results : BatchOutcome → List Msg
  | .interrupted _ rs _ => rs
  | .completed rs _ => rs

/-- The effect log of a batch outcome. -/
def BatchOutcome.effects : BatchOutcome → List Effect
  | .interrupted _ _ es => es
  | .completed _ es => es

/-- The `for toolCall of toolCalls` loop: processes calls in issue
order, stopping at the first confirmation interrupt (`break`). -/
def processCalls (env : Env) : List ToolCall → BatchOutcome
  | [] => .completed [] []
  | c :: rest =>
      match processOne env c with
      | .interrupt s effs => .interrupted s [] effs
      | .result m effs => (processCalls env rest).withPre m effs

/-- The closed set of terminal outcomes the renderer classifies
(`text_response`, `tool_executed`, `applescript_confirmation_required`,
`error`); `tool_executed` is the variant the renderer handles that the
loop is claimed never to produce. -/
inductive Outcome where
  | text_response (content : String)
  | tool_executed (results : List (ToolCall × FnResponse))
  | applescript_confirmation_required (scriptContent : String)
  | error (message : String)
deriving DecidableEq, Repr

/-- An assistant response from the model oracle. -/
structure AssistantReply where
  content : Option String
  tool_calls : List ToolCall
deriving DecidableEq, Repr

/-- One round trip to the model: a reply, or a thrown transport error
(network/auth/rate limit) caught by the loop's outer catch. -/
inductive OracleResponse where
  | reply (message : AssistantReply)
  | failure (message : String)
deriving DecidableEq, Repr

/-- Instrumented result of the orchestration loop: terminal outcome,
final conversation, effect log, and the trace of conversation states
reached (in chronological order). -/
structure LoopRes where
  outcome : Outcome
  messages : List Msg
  effects : List Effect
  trace : List (List Msg)
deriving DecidableEq, Repr

/-- The per-invocation turn budget. -/
def maxTurns : Nat := 5

/-- Error message of the max-turns fallback. -/
def maxTurnsMsg : String :=
  "LLM interaction reached max turns (" ++ toString maxTurns ++ ") without a final response."

/-- Error message for a batch that produced neither results nor text. -/
def unexpectedEndMsg : String :=
  "LLM interaction finished unexpectedly after tool processing without results or text."

/-- The max-turns exit reads `messages[messages.length - 1]` and
returns its content only when that very message is an assistant message
with truthy content. -/
def lastAssistantContent (ms : List Msg) : Option String :=
  match ms.getLast? with
  | some (Msg.assistant (some c) _) => if c ≠ "" then some c else none
  | _ => none

/-- The `for turn in 0..maxTurns` loop, by remaining fuel. Each turn:
call the oracle, append the assistant message; with no tool calls,
return its (possibly empty) text; otherwise dispatch the batch —
interrupt returns the confirmation outcome immediately (accumulated
results discarded), a completed batch with results is appended and the
loop continues, and a completed batch without results returns the
assistant text when truthy, else the unexpected-end error. -/
def loopGo (env : Env) (oracle : Nat → OracleResponse) :
    Nat → Nat → List Msg → LoopRes
  | 0, _, ms =>
      match lastAssistantContent ms with
      | some c => LoopRes.mk (.text_response c) ms [] []
      | none => LoopRes.mk (.error maxTurnsMsg) ms [] []
  | Nat.succ fuel, turn, ms =>
      match oracle turn with
      | .failure emsg => LoopRes.mk (.error emsg) ms [] []
      | .reply rm =>
          let ms1 := ms ++ [Msg.assistant rm.content rm.tool_calls]
          if rm.tool_calls = [] then
            LoopRes.mk (.text_response (rm.content.getD "")) ms1 [] [ms1]
          else
            match processCalls env rm.tool_calls with
            | .interrupted s _rs effs =>
                LoopRes.mk (.applescript_confirmation_required s) ms1 effs [ms1]
            | .completed rs effs =>
                if rs = [] then
                  match rm.content with
                  | some c =>
                      if c = "" then LoopRes.mk (.error unexpectedEndMsg) ms1 effs [ms1]
                      else LoopRes.mk (.text_response c) ms1 effs [ms1]
                  | none => LoopRes.mk (.error unexpectedEndMsg) ms1 effs [ms1]
                else
                  let r := loopGo env oracle fuel (turn + 1) (ms1 ++ rs)
                  LoopRes.mk r.outcome r.messages (effs ++ r.effects)
                    (ms1 :: (ms1 ++ rs) :: r.trace)

/-- The system prompt (a fixed string sent to the oracle; its text is
inert data for the control flow — abbreviated here). -/
def systemPromptText : String :=
  "You are a powerful assistant integrated into a desktop launcher on macOS."

/-- The fresh conversation built per user utterance. -/
def initialMessages (userQuery : String) : List Msg :=
  [Msg.system systemPromptText, Msg.user userQuery]

/-- `handleLlmQuery`: the model-call path. Builds the fresh
conversation, runs the turn loop with the `maxTurns` budget, and
returns the instrumented result with the initial conversation state at
the head of the trace. -/
def handleLlmQuery (env : Env) (oracle : Nat → OracleResponse) (userQuery : String) :
    LoopRes :=
  let init := initialMessages userQuery
  let r := loopGo env oracle maxTurns 0 init
  LoopRes.mk r.outcome r.messages r.effects (init :: r.trace)

/-- Effect log containing no `osascript` execution. -/
def effectsClean (l : List Effect) : Bool := l.all (fun e => !e.isOsascriptRun)

/-- The effects performed while processing one tool call. -/
def StepRes.effects : StepRes → List Effect
  | .interrupt _ e => e
  | .result _ e => e

/-- Whether a tool-call id is licensed by the current context (the
tool-call list of the nearest preceding assistant message, unless a
non-tool message intervened). -/
def idOkIn (ctx : Option (List ToolCall)) (id : String) : Bool :=
  match ctx with
  | some calls => calls.any (fun tc => tc.id == id)
  | none => false

/-- Referential-integrity check, parameterized by the context of the
immediately preceding assistant message's tool calls. -/
def toolIdsOkAux : Option (List ToolCall) → List Msg → Bool
  | _, [] => true
  | _, (Msg.assistant _ tcs) :: rest => toolIdsOkAux (some tcs) rest
  | ctx, (Msg.tool id _) :: rest => idOkIn ctx id && toolIdsOkAux ctx rest
  | _, (Msg.system _) :: rest => toolIdsOkAux none rest
  | _, (Msg.user _) :: rest => toolIdsOkAux none rest

/-- A conversation is well-formed when every tool-role message's
tool_call_id is the id of some tool call of the assistant message
immediately preceding that run of tool messages. -/
def toolIdsOk (ms : List Msg) : Bool := toolIdsOkAux none ms

/-- The context left behind by a message sequence. -/
def ctxAfter : Option (List ToolCall) → List Msg → Option (List ToolCall)
  | ctx, [] => ctx
  | _, (Msg.assistant _ tcs) :: rest => ctxAfter (some tcs) rest
  | ctx, (Msg.tool _ _) :: rest => ctxAfter ctx rest
  | _, (Msg.system _) :: rest => ctxAfter none rest
  | _, (Msg.user _) :: rest => ctxAfter none rest

/-- Whether an outcome is the renderer's `tool_executed` variant. -/
def Outcome.isToolExecuted : Outcome → Bool
  | .tool_executed _ => true
  | _ => false

/-- Concrete world for evaluation: shell enumeration and search fail,
opening never throws, every path stats as a regular file whose content
is "hello", and osascript rejects. -/
def envW : Env :=
  Env.mk (.error "ls failed") (.error "readdir failed") (fun _ => none)
    (fun _ => .error "mdfind failed") (fun _ => .ok true) (fun _ => .ok "hello")
    (fun _ => .err none "osa failed")

/-- Concrete world where every path stats as a non-regular file (a
directory). -/
def env7 : Env :=
  Env.mk (.error "ls failed") (.error "readdir failed") (fun _ => none)
    (fun _ => .error "mdfind failed") (fun _ => .ok false) (fun _ => .ok "")
    (fun _ => .err none "osa failed")

/-- A concrete `readFileContent` tool call. -/
def rcW : ToolCall := ToolCall.mk "call_rf" "readFileContent" (FnArgs.mk "/tmp/a.txt" "" "")

/-- A concrete gated automation call with non-empty script content. -/
def gcW : ToolCall :=
  ToolCall.mk "call_as" "executeAppleScript"
    (FnArgs.mk "" "" "tell application \"Safari\" to activate")

/-- A concrete gated automation call with empty script content. -/
def gcE : ToolCall := ToolCall.mk "call_e" "executeAppleScript" (FnArgs.mk "" "" "")

/-- A concrete assistant reply whose batch puts the gated call between
two other calls. -/
def rmW : AssistantReply := AssistantReply.mk (some "ok") [rcW, gcW, rcW]

/-- Oracle that always answers with `rmW`. -/
def oracleW : Nat → OracleResponse := fun _ => .reply rmW

/-- Oracle that requests a `listApplications` tool call, alongside
assistant text, on every turn. -/
def oracleC3 : Nat → OracleResponse :=
  fun _ => .reply (AssistantReply.mk (some "Working on it.")
    [ToolCall.mk "call_1" "listApplications" (FnArgs.mk "" "" "")])

/-- Case-by-case characterization of `processOne` over the five
dispatchable names and the unknown-name fallback. -/
theorem processOne_eq (env : Env) (c : ToolCall) :
    processOne env c =
      if c.name = "listApplications" then
        .result (Msg.tool c.id (.payload (listApplications env).1)) (listApplications env).2
      else if c.name = "openPath" then
        .result (Msg.tool c.id (.payload (openPath env c.args.filePath).1))
          (openPath env c.args.filePath).2
      else if c.name = "searchFiles" then
        .result (Msg.tool c.id (.payload (searchFiles env c.args.query).1))
          (searchFiles env c.args.query).2
      else if c.name = "executeAppleScript" then
        (if c.args.scriptContent = "" then
          .result (Msg.tool c.id (.errorPayload "Empty script content provided.")) []
        else .interrupt c.args.scriptContent [])
      else if c.name = "readFileContent" then
        .result (Msg.tool c.id (.payload (readFileContent env c.args.filePath).1))
          (readFileContent env c.args.filePath).2
      else
        .result (Msg.tool c.id (.errorPayload ("Unknown tool function: " ++ c.name))) [] := by
  by_cases h1 : c.name = "listApplications"
  · simp [processOne, availableFunctions, h1]
  · by_cases h2 : c.name = "openPath"
    · simp [processOne, availableFunctions, h1, h2]
    · by_cases h3 : c.name = "searchFiles"
      · simp [processOne, availableFunctions, h1, h2, h3]
      · by_cases h4 : c.name = "executeAppleScript"
        · by_cases h5 : c.args.scriptContent = ""
          · simp [processOne, availableFunctions, h1, h2, h3, h4, h5,
              runAppleScriptNeedsConfirmation, respError]
          · simp [processOne, availableFunctions, h1, h2, h3, h4, h5,
              runAppleScriptNeedsConfirmation]
        · by_cases h6 : c.name = "readFileContent"
          · simp [processOne, availableFunctions, h1, h2, h3, h4, h6]
          · simp [processOne, availableFunctions, h1, h2, h3, h4, h6]

theorem withPre_results (m : Msg) (effs : List Effect) (b : BatchOutcome) :
    (b.withPre m effs).results = m :: b.results := by
  cases b <;> rfl

theorem withPre_effects (m : Msg) (effs : List Effect) (b : BatchOutcome) :
    (b.withPre m effs).effects = effs ++ b.effects := by
  cases b <;> rfl

/-- A gated call with non-empty script interrupts immediately. -/
theorem processOne_gated_nonempty (env : Env) (c : ToolCall)
    (h1 : c.name = "executeAppleScript") (h2 : c.args.scriptContent ≠ "") :
    processOne env c = .interrupt c.args.scriptContent [] := by
  rw [processOne_eq]
  simp [h1, h2]

/-- A gated call with empty script is folded as an ordinary error
result, not an interrupt. -/
theorem processOne_gated_empty (env : Env) (c : ToolCall)
    (h1 : c.name = "executeAppleScript") (h2 : c.args.scriptContent = "") :
    processOne env c =
      .result (Msg.tool c.id (.errorPayload "Empty script content provided.")) [] := by
  rw [processOne_eq]
  simp [h1, h2]

/-- Every non-interrupt step produces a tool-role message tagged with
the processed call's id. -/
theorem processOne_result_shape (env : Env) (c : ToolCall) (m : Msg)
    (effs : List Effect) (h : processOne env c = .result m effs) :
    ∃ cont, m = Msg.tool c.id cont := by
  rw [processOne_eq] at h
  split_ifs at h <;> (cases h <;> exact ⟨_, rfl⟩)

/-- A call that is not a gated call with non-empty script never
interrupts. -/
theorem processOne_not_interrupt (env : Env) (c : ToolCall)
    (hclean : c.name = "executeAppleScript" → c.args.scriptContent = "") :
    ∃ m effs, processOne env c = .result m effs := by
  rw [processOne_eq]
  split_ifs with h1 h2 h3 h4 h5 h6
  · exact ⟨_, _, rfl⟩
  · exact ⟨_, _, rfl⟩
  · exact ⟨_, _, rfl⟩
  · exact ⟨_, _, rfl⟩
  · exact absurd (hclean h4) h5
  · exact ⟨_, _, rfl⟩
  · exact ⟨_, _, rfl⟩

/-- Once a gated non-empty call is present, the batch outcome does not
depend on the calls positioned after it. -/
theorem processCalls_suffix_irrelevant (env : Env) (gc : ToolCall)
    (h1 : gc.name = "executeAppleScript") (h2 : gc.args.scriptContent ≠ "") :
    ∀ (pre post post' : List ToolCall),
      processCalls env (pre ++ gc :: post) = processCalls env (pre ++ gc :: post')
  | [], post, post' => by
      simp [processCalls, processOne_gated_nonempty env gc h1 h2]
  | c :: pre, post, post' => by
      simp only [List.cons_append, processCalls, List.append_eq]
      rw [processCalls_suffix_irrelevant env gc h1 h2 pre post post']

/-- If nothing before the gated non-empty call interrupts, the batch
outcome is the interrupt carrying that call's script. -/
theorem processCalls_first_interrupt (env : Env) (gc : ToolCall)
    (h1 : gc.name = "executeAppleScript") (h2 : gc.args.scriptContent ≠ "") :
    ∀ (pre post : List ToolCall),
      (∀ c ∈ pre, c.name = "executeAppleScript" → c.args.scriptContent = "") →
      ∃ rs effs, processCalls env (pre ++ gc :: post) =
        .interrupted gc.args.scriptContent rs effs
  | [], post, _ =>
      ⟨[], [], by simp [processCalls, processOne_gated_nonempty env gc h1 h2]⟩
  | c :: pre, post, hclean => by
      obtain ⟨m, effs, hm⟩ :=
        processOne_not_interrupt env c (hclean c (List.mem_cons_self c pre))
      obtain ⟨rs, es, hrec⟩ := processCalls_first_interrupt env gc h1 h2 pre post
        (fun d hd => hclean d (List.mem_cons_of_mem c hd))
      exact ⟨m :: rs, effs ++ es, by
        simp only [List.cons_append, processCalls, List.append_eq, hm, hrec,
          BatchOutcome.withPre]⟩

/-- Every result message a batch accumulates is a tool-role message
whose id belongs to one of the batch's calls. -/
theorem processCalls_results_shape (env : Env) :
    ∀ (calls : List ToolCall), ∀ m ∈ (processCalls env calls).results,
      ∃ tc cont, tc ∈ calls ∧ m = Msg.tool tc.id cont
  | [] => by simp [processCalls, BatchOutcome.results]
  | c :: rest => by
      intro m hm
      cases hpc : processOne env c with
      | interrupt s effs =>
          simp [processCalls, hpc, BatchOutcome.results] at hm
      | result m0 effs =>
          obtain ⟨cont, hcont⟩ := processOne_result_shape env c m0 effs hpc
          simp only [processCalls, hpc, withPre_results, List.mem_cons] at hm
          rcases hm with rfl | hm
          · exact ⟨c, cont, List.mem_cons_self c rest, hcont⟩
          · obtain ⟨tc, cont2, htc, hmeq⟩ := processCalls_results_shape env rest m hm
            exact ⟨tc, cont2, List.mem_cons_of_mem c htc, hmeq⟩

theorem listApplications_clean (env : Env) :
    effectsClean (listApplications env).2 = true := by
  unfold listApplications effectsClean
  cases env.ls with
  | ok s => simp [Effect.isOsascriptRun]
  | error e => cases env.readdir <;> simp [Effect.isOsascriptRun]

theorem openPath_clean (env : Env) (p : String) :
    effectsClean (openPath env p).2 = true := by
  unfold openPath effectsClean
  cases env.openThrows p <;> simp [Effect.isOsascriptRun]

theorem searchFiles_clean (env : Env) (q : String) :
    effectsClean (searchFiles env q).2 = true := by
  unfold searchFiles effectsClean
  cases env.mdfind q <;> simp [Effect.isOsascriptRun]

theorem readFileContent_clean (env : Env) (p : String) :
    effectsClean (readFileContent env p).2 = true := by
  unfold readFileContent effectsClean
  split
  · simp [Effect.isOsascriptRun]
  · simp [Effect.isOsascriptRun]
  · split
    · simp [Effect.isOsascriptRun]
    · split_ifs <;> simp [Effect.isOsascriptRun]

/-- No single tool-call step ever runs `osascript`. -/
theorem processOne_clean (env : Env) (c : ToolCall) :
    effectsClean (processOne env c).effects = true := by
  rw [processOne_eq]
  split_ifs
  · exact listApplications_clean env
  · exact openPath_clean env _
  · exact searchFiles_clean env _
  · rfl
  · rfl
  · exact readFileContent_clean env _
  · rfl

theorem effectsClean_append (l1 l2 : List Effect) :
    effectsClean (l1 ++ l2) = (effectsClean l1 && effectsClean l2) := by
  simp [effectsClean]

/-- No batch dispatch ever runs `osascript`. -/
theorem processCalls_clean (env : Env) :
    ∀ calls : List ToolCall, effectsClean (processCalls env calls).effects = true
  | [] => by simp [processCalls, BatchOutcome.effects, effectsClean]
  | c :: rest => by
      have h1 := processOne_clean env c
      have h2 := processCalls_clean env rest
      cases hpc : processOne env c with
      | interrupt s effs =>
          rw [hpc] at h1
          simpa [processCalls, hpc, BatchOutcome.effects] using h1
      | result m effs =>
          rw [hpc] at h1
          simp only [processCalls, hpc, withPre_effects, effectsClean_append,
            Bool.and_eq_true]
          exact ⟨h1, h2⟩

/-- No turn of the orchestration loop ever runs `osascript`. -/
theorem loopGo_clean (env : Env) (oracle : Nat → OracleResponse) :
    ∀ (fuel turn : Nat) (ms : List Msg),
      effectsClean (loopGo env oracle fuel turn ms).effects = true
  | 0, turn, ms => by
      unfold loopGo
      cases lastAssistantContent ms <;> rfl
  | Nat.succ fuel, turn, ms => by
      cases horacle : oracle turn with
      | failure e => simp [loopGo, horacle, effectsClean]
      | reply rm =>
          by_cases hempty : rm.tool_calls = []
          · simp [loopGo, horacle, hempty, effectsClean]
          · have hpcclean := processCalls_clean env rm.tool_calls
            cases hpc : processCalls env rm.tool_calls with
            | interrupted s rs effs =>
                rw [hpc] at hpcclean
                simpa [loopGo, horacle, hempty, hpc] using hpcclean
            | completed rs effs =>
                rw [hpc] at hpcclean
                by_cases hrs : rs = []
                · cases hc : rm.content with
                  | none => simpa [loopGo, horacle, hempty, hpc, hrs, hc] using hpcclean
                  | some c =>
                      by_cases hcc : c = "" <;>
                        simpa [loopGo, horacle, hempty, hpc, hrs, hc, hcc] using hpcclean
                · have hrec := loopGo_clean env oracle fuel (turn + 1)
                    ((ms ++ [Msg.assistant rm.content rm.tool_calls]) ++ rs)
                  simp only [BatchOutcome.effects] at hpcclean
                  simp only [List.append_assoc, List.singleton_append] at hrec
                  simp [loopGo, horacle, hempty, hpc, hrs, effectsClean_append,
                    hpcclean, hrec]

theorem toolIdsOkAux_append :
    ∀ (xs : List Msg) (ctx : Option (List ToolCall)) (ys : List Msg),
      toolIdsOkAux ctx (xs ++ ys) =
        (toolIdsOkAux ctx xs && toolIdsOkAux (ctxAfter ctx xs) ys)
  | [], ctx, ys => by simp [toolIdsOkAux, ctxAfter]
  | m :: xs, ctx, ys => by
      cases m <;>
        simp [toolIdsOkAux, ctxAfter, toolIdsOkAux_append xs _ ys, Bool.and_assoc]

theorem ctxAfter_append :
    ∀ (xs : List Msg) (ctx : Option (List ToolCall)) (ys : List Msg),
      ctxAfter ctx (xs ++ ys) = ctxAfter (ctxAfter ctx xs) ys
  | [], ctx, ys => by simp [ctxAfter]
  | m :: xs, ctx, ys => by
      cases m <;> simp [ctxAfter, ctxAfter_append xs _ ys]

/-- A run of tool messages whose ids all come from `tcs` passes the
integrity check in context `tcs` and leaves the context unchanged. -/
theorem resultsRun_ok (tcs : List ToolCall) :
    ∀ rs : List Msg,
      (∀ m ∈ rs, ∃ tc cont, tc ∈ tcs ∧ m = Msg.tool tc.id cont) →
      toolIdsOkAux (some tcs) rs = true ∧ ctxAfter (some tcs) rs = some tcs
  | [], _ => ⟨rfl, rfl⟩
  | m :: rs, h => by
      obtain ⟨tc, cont, htc, rfl⟩ := h m (List.mem_cons_self m rs)
      obtain ⟨ih1, ih2⟩ := resultsRun_ok tcs rs (fun d hd => h d (List.mem_cons_of_mem _ hd))
      refine ⟨?_, ih2⟩
      have hany : tcs.any (fun d => d.id == tc.id) = true :=
        List.any_eq_true.mpr ⟨tc, htc, beq_self_eq_true tc.id⟩
      simp [toolIdsOkAux, idOkIn, ih1, hany]

theorem toolIdsOk_append_assistant (ms : List Msg) (c : Option String)
    (tcs : List ToolCall) (h : toolIdsOk ms = true) :
    toolIdsOk (ms ++ [Msg.assistant c tcs]) = true := by
  unfold toolIdsOk at *
  rw [toolIdsOkAux_append]
  simp [h, toolIdsOkAux]

theorem ctxAfter_assistant (ms : List Msg) (c : Option String) (tcs : List ToolCall) :
    ctxAfter none (ms ++ [Msg.assistant c tcs]) = some tcs := by
  rw [ctxAfter_append]
  rfl

theorem toolIdsOk_append_results (ms : List Msg) (c : Option String)
    (tcs : List ToolCall) (rs : List Msg)
    (h : toolIdsOk ms = true)
    (hshape : ∀ m ∈ rs, ∃ tc cont, tc ∈ tcs ∧ m = Msg.tool tc.id cont) :
    toolIdsOk ((ms ++ [Msg.assistant c tcs]) ++ rs) = true := by
  unfold toolIdsOk
  rw [toolIdsOkAux_append, ctxAfter_assistant,
    (resultsRun_ok tcs rs hshape).1, Bool.and_true]
  exact toolIdsOk_append_assistant ms c tcs h

/-- Loop invariant: starting from a well-formed conversation, every
conversation state the loop reaches is well-formed, consecutive states
extend each other by appending, and the final conversation is one of
the reached states. -/
theorem loopGo_inv (env : Env) (oracle : Nat → OracleResponse) :
    ∀ (fuel turn : Nat) (ms : List Msg), toolIdsOk ms = true →
      ((loopGo env oracle fuel turn ms).trace.all toolIdsOk = true)
      ∧ List.Chain' (· <+: ·) (ms :: (loopGo env oracle fuel turn ms).trace)
      ∧ (loopGo env oracle fuel turn ms).messages ∈ ms :: (loopGo env oracle fuel turn ms).trace
  | 0, turn, ms => fun h => by
      unfold loopGo
      cases lastAssistantContent ms <;>
        exact ⟨rfl, List.chain'_singleton ms, List.mem_singleton.mpr rfl⟩
  | Nat.succ fuel, turn, ms => fun h => by
      cases horacle : oracle turn with
      | failure e =>
          simp only [loopGo, horacle]
          exact ⟨rfl, List.chain'_singleton ms, List.mem_singleton.mpr rfl⟩
      | reply rm =>
          have hm1 : toolIdsOk (ms ++ [Msg.assistant rm.content rm.tool_calls]) = true :=
            toolIdsOk_append_assistant ms _ _ h
          have hpre1 : ms <+: ms ++ [Msg.assistant rm.content rm.tool_calls] :=
            ⟨[Msg.assistant rm.content rm.tool_calls], rfl⟩
          by_cases hempty : rm.tool_calls = []
          · simp only [loopGo, horacle, if_pos hempty]
            refine ⟨by simp [hm1], ?_, by simp⟩
            exact List.chain'_pair.mpr hpre1
          · cases hpc : processCalls env rm.tool_calls with
            | interrupted s rs effs =>
                simp only [loopGo, horacle, if_neg hempty, hpc]
                refine ⟨by simp [hm1], List.chain'_pair.mpr hpre1, by simp⟩
            | completed rs effs =>
                by_cases hrs : rs = []
                · simp only [loopGo, horacle, if_neg hempty, hpc, if_pos hrs]
                  cases hc : rm.content with
                  | none =>
                      rw [hc] at hm1 hpre1
                      refine ⟨by simp [hm1], List.chain'_pair.mpr hpre1, by simp⟩
                  | some c =>
                      rw [hc] at hm1 hpre1
                      by_cases hcc : c = ""
                      · subst hcc
                        simp only [reduceIte]
                        refine ⟨by simp [hm1], List.chain'_pair.mpr hpre1, by simp⟩
                      · simp only [if_neg hcc]
                        refine ⟨by simp [hm1], List.chain'_pair.mpr hpre1, by simp⟩
                · have hshape : ∀ m ∈ rs, ∃ tc cont, tc ∈ rm.tool_calls ∧
                      m = Msg.tool tc.id cont := by
                    intro m hm
                    refine processCalls_results_shape env rm.tool_calls m ?_
                    rw [hpc]
                    exact hm
                  have hms2 : toolIdsOk
                      ((ms ++ [Msg.assistant rm.content rm.tool_calls]) ++ rs) = true :=
                    toolIdsOk_append_results ms _ _ rs h hshape
                  obtain ⟨ih1, ih2, ih3⟩ := loopGo_inv env oracle fuel (turn + 1)
                    ((ms ++ [Msg.assistant rm.content rm.tool_calls]) ++ rs) hms2
                  have hpre2 : (ms ++ [Msg.assistant rm.content rm.tool_calls]) <+:
                      ((ms ++ [Msg.assistant rm.content rm.tool_calls]) ++ rs) := ⟨rs, rfl⟩
                  simp only [loopGo, horacle, if_neg hempty, hpc, if_neg hrs]
                  refine ⟨?_, ?_, ?_⟩
                  · simp only [List.all_cons, Bool.and_eq_true]
                    exact ⟨hm1, hms2, ih1⟩
                  · exact List.chain'_cons.mpr ⟨hpre1,
                      List.chain'_cons.mpr ⟨hpre2, ih2⟩⟩
                  · exact List.mem_cons_of_mem _ (List.mem_cons_of_mem _ ih3)

/-- Every terminal outcome of the loop is a text response, a
confirmation request, or an error; never `tool_executed`. -/
theorem loopGo_outcome_closed (env : Env) (oracle : Nat → OracleResponse) :
    ∀ (fuel turn : Nat) (ms : List Msg),
      ((∃ c, (loopGo env oracle fuel turn ms).outcome = .text_response c)
        ∨ (∃ s, (loopGo env oracle fuel turn ms).outcome =
            .applescript_confirmation_required s)
        ∨ (∃ m, (loopGo env oracle fuel turn ms).outcome = .error m))
      ∧ (loopGo env oracle fuel turn ms).outcome.isToolExecuted = false
  | 0, turn, ms => by
      unfold loopGo
      cases lastAssistantContent ms with
      | none => exact ⟨Or.inr (Or.inr ⟨_, rfl⟩), rfl⟩
      | some c => exact ⟨Or.inl ⟨_, rfl⟩, rfl⟩
  | Nat.succ fuel, turn, ms => by
      cases horacle : oracle turn with
      | failure e =>
          simp only [loopGo, horacle]
          exact ⟨Or.inr (Or.inr ⟨_, rfl⟩), rfl⟩
      | reply rm =>
          by_cases hempty : rm.tool_calls = []
          · simp only [loopGo, horacle, if_pos hempty]
            exact ⟨Or.inl ⟨_, rfl⟩, rfl⟩
          · cases hpc : processCalls env rm.tool_calls with
            | interrupted s rs effs =>
                simp only [loopGo, horacle, if_neg hempty, hpc]
                exact ⟨Or.inr (Or.inl ⟨_, rfl⟩), rfl⟩
            | completed rs effs =>
                by_cases hrs : rs = []
                · simp only [loopGo, horacle, if_neg hempty, hpc, if_pos hrs]
                  cases rm.content with
                  | none => exact ⟨Or.inr (Or.inr ⟨_, rfl⟩), rfl⟩
                  | some c =>
                      by_cases hcc : c = ""
                      · subst hcc
                        simp only [reduceIte]
                        exact ⟨Or.inr (Or.inr ⟨_, rfl⟩), rfl⟩
                      · simp only [if_neg hcc]
                        exact ⟨Or.inl ⟨_, rfl⟩, rfl⟩
                · have ih := loopGo_outcome_closed env oracle fuel (turn + 1)
                    ((ms ++ [Msg.assistant rm.content rm.tool_calls]) ++ rs)
                  simp only [loopGo, horacle, if_neg hempty, hpc, if_neg hrs]
                  simpa using ih

/-- When the batch dispatch of the current turn interrupts, the loop
returns the confirmation outcome at once: the conversation gains only
the assistant message, and the turn's trace stops there. -/
theorem loopGo_interrupt_step (env : Env) (oracle : Nat → OracleResponse)
    (fuel turn : Nat) (ms : List Msg) (rm : AssistantReply) (s : String)
    (rs : List Msg) (effs : List Effect)
    (h1 : oracle turn = .reply rm)
    (h2 : processCalls env rm.tool_calls = .interrupted s rs effs) :
    loopGo env oracle (fuel + 1) turn ms =
      LoopRes.mk (.applescript_confirmation_required s)
        (ms ++ [Msg.assistant rm.content rm.tool_calls]) effs
        [ms ++ [Msg.assistant rm.content rm.tool_calls]] := by
  have hne : rm.tool_calls ≠ [] := by
    intro he
    rw [he] at h2
    simp [processCalls] at h2
  simp only [loopGo, h1, if_neg hne, h2]

/-- C1: for every user query submitted through `handleLlmQuery` and any
script content the oracle supplies, no `osascript` execution occurs
during that invocation — the effect log of the whole model-call path is
free of osascript runs for every environment, oracle and query; the
mapped gate `runAppleScriptNeedsConfirmation` performs no effects at
all; and `executeConfirmedAppleScript`, the separate execute-confirmed
entry point, is the operation that does run `osascript` (exactly once,
for any non-empty script). -/
theorem claim_C1_no_osascript_in_query_path (env : Env)
    (oracle : Nat → OracleResponse) (q : String) :
    effectsClean (handleLlmQuery env oracle q).effects = true
    ∧ (∀ s, (runAppleScriptNeedsConfirmation s).2 = [])
    ∧ (∀ (env2 : Env) (s : String), s ≠ "" →
        (executeConfirmedAppleScript env2 s).2 =
          [Effect.execFile "osascript" (osascriptArgs s)]) := by
  refine ⟨?_, ?_, ?_⟩
  · exact loopGo_clean env oracle maxTurns 0 (initialMessages q)
  · intro s
    unfold runAppleScriptNeedsConfirmation
    split_ifs <;> rfl
  · intro env2 s hs
    unfold executeConfirmedAppleScript
    rw [if_neg hs]
    split
    · split_ifs <;> rfl
    · rfl

theorem claim_C1_witness :
    (executeConfirmedAppleScript envW "tell application \"Finder\" to activate").2 =
      [Effect.execFile "osascript"
        (osascriptArgs "tell application \"Finder\" to activate")] :=
  (claim_C1_no_osascript_in_query_path envW (fun _ => .failure "down") "q").2.2
    envW "tell application \"Finder\" to activate" (by decide)

/-- C2: when a batch contains the gated automation call with non-empty
script (and no earlier call in the batch interrupts), the batch outcome
is independent of every call positioned after it (none is invoked),
the batch interrupts carrying that call's script, and the loop turn
returns the `applescript_confirmation_required` outcome with that
script while appending no tool-role result message for the gated call
to the conversation. -/
theorem claim_C2_interrupt_aborts_batch (env : Env)
    (pre post post' : List ToolCall) (gc : ToolCall)
    (h1 : gc.name = "executeAppleScript") (h2 : gc.args.scriptContent ≠ "")
    (h3 : ∀ c ∈ pre, c.name = "executeAppleScript" → c.args.scriptContent = "") :
    processCalls env (pre ++ gc :: post) = processCalls env (pre ++ gc :: post')
    ∧ (∃ rs effs, processCalls env (pre ++ gc :: post) =
        .interrupted gc.args.scriptContent rs effs)
    ∧ (∀ (oracle : Nat → OracleResponse) (fuel turn : Nat) (ms : List Msg)
        (rm : AssistantReply), oracle turn = .reply rm →
        rm.tool_calls = pre ++ gc :: post →
        (loopGo env oracle (fuel + 1) turn ms).outcome =
          .applescript_confirmation_required gc.args.scriptContent
        ∧ ∀ tc, Msg.tool gc.id tc ∈ (loopGo env oracle (fuel + 1) turn ms).messages →
            Msg.tool gc.id tc ∈ ms) := by
  obtain ⟨rs, effs, hint⟩ := processCalls_first_interrupt env gc h1 h2 pre post h3
  refine ⟨processCalls_suffix_irrelevant env gc h1 h2 pre post post',
    ⟨rs, effs, hint⟩, ?_⟩
  intro oracle fuel turn ms rm ho htc
  have hstep := loopGo_interrupt_step env oracle fuel turn ms rm _ rs effs ho
    (by rw [htc]; exact hint)
  constructor
  · rw [hstep]
  · intro tc hmem
    have hmsg : (loopGo env oracle (fuel + 1) turn ms).messages =
        ms ++ [Msg.assistant rm.content rm.tool_calls] := by rw [hstep]
    rw [hmsg] at hmem
    rcases List.mem_append.mp hmem with h | h
    · exact h
    · rw [List.mem_singleton] at h
      exact Msg.noConfusion h

theorem claim_C2_witness :
    (loopGo envW oracleW 5 0 (initialMessages "open safari")).outcome =
      .applescript_confirmation_required "tell application \"Safari\" to activate" := by
  have h := claim_C2_interrupt_aborts_batch envW [rcW] [rcW] [] gcW rfl (by decide)
    (by
      intro c hc hn
      rw [List.mem_singleton] at hc
      subst hc
      exact absurd hn (by decide))
  exact (h.2.2 oracleW 4 0 (initialMessages "open safari") rmW rfl rfl).1

/-- C3 (divergence evidence): with an oracle that answers every one of
the five turns with tool calls and non-empty assistant text, the loop
returns the max-turns error outcome — not a `text_response` with the
assistant's text — because after a tool-call turn the last conversation
message is always a tool-role result, so the last-assistant-text
fallback of the max-turns exit can never fire. -/
theorem claim_C3_max_turns_eval :
    (handleLlmQuery envW oracleC3 "list my applications").outcome = .error maxTurnsMsg
    ∧ (∀ t : Nat, oracleC3 t = .reply (AssistantReply.mk (some "Working on it.")
        [ToolCall.mk "call_1" "listApplications" (FnArgs.mk "" "" "")])) :=
  ⟨rfl, fun _ => rfl⟩

/-- C4: for every environment, oracle and query, every conversation
state reached by the orchestration loop satisfies referential
integrity (each tool message's id occurs in the immediately preceding
assistant message's tool-call list), consecutive states grow only by
appending, the first state is the fresh system-plus-user conversation,
and the final conversation is one of the reached states. -/
theorem claim_C4_conversation_integrity (env : Env)
    (oracle : Nat → OracleResponse) (q : String) :
    (handleLlmQuery env oracle q).trace.all toolIdsOk = true
    ∧ List.Chain' (· <+: ·) (handleLlmQuery env oracle q).trace
    ∧ (handleLlmQuery env oracle q).trace.head? = some (initialMessages q)
    ∧ (handleLlmQuery env oracle q).messages ∈ (handleLlmQuery env oracle q).trace := by
  have hinit : toolIdsOk (initialMessages q) = true := rfl
  obtain ⟨h1, h2, h3⟩ := loopGo_inv env oracle maxTurns 0 (initialMessages q) hinit
  refine ⟨?_, h2, rfl, h3⟩
  have heq : (handleLlmQuery env oracle q).trace =
      initialMessages q :: (loopGo env oracle maxTurns 0 (initialMessages q)).trace := rfl
  rw [heq, List.all_cons, hinit, h1]
  rfl

/-- C5: the confirmed-execution entry point, given the empty string,
returns success false with error "Cannot execute empty script." and
performs no effect (in particular, no `osascript` execution is
attempted). -/
theorem claim_C5_empty_confirmed_script (env : Env) :
    executeConfirmedAppleScript env "" =
      (ExecResult.mk false none (some "Cannot execute empty script."), []) := rfl

/-- C6: when the stat reports a regular file and the read succeeds,
`readFileContent` returns success with the content unchanged for
lengths up to 5000 characters, and with exactly the first 5000
characters followed by the "... [truncated]" marker otherwise. -/
theorem claim_C6_truncation (env : Env) (p content : String)
    (h1 : env.stat p = .ok true) (h2 : env.readFile p = .ok content) :
    (content.length ≤ maxContentLength →
      (readFileContent env p).1 = .readOk content)
    ∧ (content.length > maxContentLength →
      (readFileContent env p).1 =
        .readOk (content.take maxContentLength ++ "... [truncated]")) := by
  constructor
  · intro hle
    simp only [readFileContent, h1, h2,
      if_neg (by omega : ¬content.length > maxContentLength)]
  · intro hgt
    simp only [readFileContent, h1, h2, if_pos hgt]

theorem claim_C6_witness :
    (readFileContent envW "/tmp/a.txt").1 = .readOk "hello" :=
  (claim_C6_truncation envW "/tmp/a.txt" "hello" rfl rfl).1 (by decide)

/-- C7: `readFileContent` is total (the Lean model returns a value on
every input) and maps each failure to its structured error: a
non-regular file to "Path is not a file", a thrown ENOENT (from stat or
read) to "File not found at path", EACCES to "Permission denied to read
file", and any other failure to "Failed to read file: " with the thrown
message, always as a success-false result. -/
theorem claim_C7_error_taxonomy (env : Env) (p : String) :
    (env.stat p = .ok false →
      (readFileContent env p).1 = .readErr ("Path is not a file: " ++ p))
    ∧ (env.stat p = .err .enoent →
      (readFileContent env p).1 = .readErr ("File not found at path: " ++ p))
    ∧ (env.stat p = .err .eacces →
      (readFileContent env p).1 = .readErr ("Permission denied to read file: " ++ p))
    ∧ (∀ m, env.stat p = .err (.other m) →
      (readFileContent env p).1 = .readErr ("Failed to read file: " ++ m))
    ∧ (env.stat p = .ok true → env.readFile p = .err .enoent →
      (readFileContent env p).1 = .readErr ("File not found at path: " ++ p))
    ∧ (env.stat p = .ok true → env.readFile p = .err .eacces →
      (readFileContent env p).1 = .readErr ("Permission denied to read file: " ++ p))
    ∧ (∀ m, env.stat p = .ok true → env.readFile p = .err (.other m) →
      (readFileContent env p).1 = .readErr ("Failed to read file: " ++ m)) := by
  refine ⟨?_, ?_, ?_, ?_, ?_, ?_, ?_⟩
  · intro h
    simp only [readFileContent, h]
  · intro h
    simp only [readFileContent, h, readCatchMessage]
  · intro h
    simp only [readFileContent, h, readCatchMessage]
  · intro m h
    simp only [readFileContent, h, readCatchMessage]
  · intro h h2
    simp only [readFileContent, h, h2, readCatchMessage]
  · intro h h2
    simp only [readFileContent, h, h2, readCatchMessage]
  · intro m h h2
    simp only [readFileContent, h, h2, readCatchMessage]

theorem claim_C7_witness :
    (readFileContent env7 "/tmp/somedir").1 =
      .readErr ("Path is not a file: " ++ "/tmp/somedir") :=
  (claim_C7_error_taxonomy env7 "/tmp/somedir").1 rfl

/-- C8: a gated automation call with empty script content does not
interrupt — the batch folds a structured error tool result for that
call (content "Empty script content provided.") and continues with the
remaining calls of the batch; in particular, when the rest of the batch
completes, the whole batch completes with the error result prepended. -/
theorem claim_C8_empty_script_continues_batch (env : Env) (gc : ToolCall)
    (rest : List ToolCall) (h1 : gc.name = "executeAppleScript")
    (h2 : gc.args.scriptContent = "") :
    processCalls env (gc :: rest) =
      (processCalls env rest).withPre
        (Msg.tool gc.id (.errorPayload "Empty script content provided.")) []
    ∧ ∀ rs effs, processCalls env rest = .completed rs effs →
        processCalls env (gc :: rest) =
          .completed (Msg.tool gc.id (.errorPayload "Empty script content provided.") :: rs)
            effs := by
  have hstep := processOne_gated_empty env gc h1 h2
  constructor
  · simp [processCalls, hstep]
  · intro rs effs hc
    simp [processCalls, hstep, hc, BatchOutcome.withPre]

theorem claim_C8_witness :
    processCalls envW [gcE, rcW] =
      .completed
        [Msg.tool "call_e" (.errorPayload "Empty script content provided."),
         Msg.tool "call_rf" (.payload (.readOk "hello"))]
        [Effect.fsStat "/tmp/a.txt", Effect.fsReadFile "/tmp/a.txt"] :=
  (claim_C8_empty_script_continues_batch envW gcE [rcW] rfl rfl).2
    [Msg.tool "call_rf" (.payload (.readOk "hello"))]
    [Effect.fsStat "/tmp/a.txt", Effect.fsReadFile "/tmp/a.txt"] rfl

/-- C9: when the confirmation interrupt fires mid-batch, the tool-role
result messages already accumulated for the earlier calls (whose side
effects did execute — the batch's effect log is returned) are
discarded: the loop returns exactly the confirmation outcome carrying
only the script, the conversation gains only the assistant message of
that turn, and none of the accumulated result messages (all tool-role
messages of the batch) appears in the appended part of the
conversation. -/
theorem claim_C9_interrupt_discards_results (env : Env)
    (oracle : Nat → OracleResponse) (fuel turn : Nat) (ms : List Msg)
    (rm : AssistantReply) (s : String) (rs : List Msg) (effs : List Effect)
    (h1 : oracle turn = .reply rm)
    (h2 : processCalls env rm.tool_calls = .interrupted s rs effs) :
    loopGo env oracle (fuel + 1) turn ms =
      LoopRes.mk (.applescript_confirmation_required s)
        (ms ++ [Msg.assistant rm.content rm.tool_calls]) effs
        [ms ++ [Msg.assistant rm.content rm.tool_calls]]
    ∧ (∀ m ∈ rs, ∃ tc cont, tc ∈ rm.tool_calls ∧ m = Msg.tool tc.id cont)
    ∧ (∀ m ∈ rs, m ∉
        (loopGo env oracle (fuel + 1) turn ms).messages.drop ms.length) := by
  have hstep := loopGo_interrupt_step env oracle fuel turn ms rm s rs effs h1 h2
  have hshape : ∀ m ∈ rs, ∃ tc cont, tc ∈ rm.tool_calls ∧ m = Msg.tool tc.id cont := by
    intro m hm
    refine processCalls_results_shape env rm.tool_calls m ?_
    rw [h2]
    exact hm
  refine ⟨hstep, hshape, ?_⟩
  intro m hm hcontra
  obtain ⟨tc, cont, htc, rfl⟩ := hshape m hm
  have hmsg : (loopGo env oracle (fuel + 1) turn ms).messages =
      ms ++ [Msg.assistant rm.content rm.tool_calls] := by rw [hstep]
  rw [hmsg, List.drop_left] at hcontra
  rw [List.mem_singleton] at hcontra
  exact Msg.noConfusion hcontra

theorem claim_C9_witness :
    (loopGo envW oracleW 5 0 (initialMessages "w")).messages =
      initialMessages "w" ++ [Msg.assistant (some "ok") [rcW, gcW, rcW]] := by
  have h := claim_C9_interrupt_discards_results envW oracleW 4 0
    (initialMessages "w") rmW "tell application \"Safari\" to activate"
    [Msg.tool "call_rf" (.payload (.readOk "hello"))]
    [Effect.fsStat "/tmp/a.txt", Effect.fsReadFile "/tmp/a.txt"] rfl (by decide)
  rw [h.1]
  rfl

/-- C10: for every environment, oracle and query, the outcome
`handleLlmQuery` returns is a `text_response`, an
`applescript_confirmation_required`, or an `error`; the `tool_executed`
variant of the outcome type is never returned. -/
theorem claim_C10_outcome_closed (env : Env) (oracle : Nat → OracleResponse)
    (q : String) :
    ((∃ c, (handleLlmQuery env oracle q).outcome = .text_response c)
      ∨ (∃ s, (handleLlmQuery env oracle q).outcome =
          .applescript_confirmation_required s)
      ∨ (∃ m, (handleLlmQuery env oracle q).outcome = .error m))
    ∧ (handleLlmQuery env oracle q).outcome.isToolExecuted = false :=
  loopGo_outcome_closed env oracle maxTurns 0 (initialMessages q)

end Controller
